import Mathlib

/-!
Verification of the SLACK order-sync repository.

This file gives a shallow embedding, in Lean 4, of the core logic of the
repository: the parsing pipeline (ai-parser.js: normalizeProduct, fastParse,
aiParse, parseMessage), the event deduplicator (slack-handler.js:
shouldSkipEvent and the approve-action duplicate check), and the sheet sync
engine (google-sheets.js: appendData, updateData, deleteData).  External
I/O (the Sheets API, the Slack API, the Gemini call) is modelled by explicit
state passing and by failure oracles; everything else is translated
statement-by-statement from the JavaScript source.
-/

namespace OrderSync

/-! ## JavaScript string primitives used by the source -/

/-- The apostrophe character, written by code point to keep source clean. -/
def quoteChar : Char := Char.ofNat 39

/-- Whitespace test used throughout (JavaScript `\s` on the ASCII range). -/
def ws (c : Char) : Bool := c.isWhitespace

/-- JavaScript `s.trim()`: strip leading and trailing whitespace.
Implemented over the character list so that it evaluates by kernel
reduction. -/
def jsTrim (s : String) : String :=
  String.mk (((s.data.dropWhile ws).reverse.dropWhile ws).reverse)

/-- `needle` is a leading run of `hay` (char-list prefix test). -/
def leadMatch : List Char → List Char → Bool
  | [], _ => true
  | _ :: _, [] => false
  | a :: as, b :: bs => a == b && leadMatch as bs

/-- Auxiliary scan for substring containment over char lists. -/
def inclAux (needle : List Char) : List Char → Bool
  | [] => leadMatch needle []
  | c :: rest => leadMatch needle (c :: rest) || inclAux needle rest

/-- JavaScript `hay.includes(needle)` for strings. -/
def jsIncludes (hay needle : String) : Bool :=
  inclAux needle.data hay.data

/-- Value of a single character as a digit in base `b`, as JavaScript
`parseInt` accepts it (0-9, a-z, A-Z below the base). -/
def digitVal (b : Nat) (c : Char) : Option Nat :=
  let v : Option Nat :=
    if c.isDigit then some (c.toNat - 48)
    else if 97 ≤ c.toNat ∧ c.toNat ≤ 122 then some (c.toNat - 87)
    else if 65 ≤ c.toNat ∧ c.toNat ≤ 90 then some (c.toNat - 55)
    else none
  match v with
  | some v => if v < b then some v else none
  | none => none

/-- Longest leading run of base-`b` digits, as digit values. -/
def takeDigits (b : Nat) : List Char → List Nat
  | [] => []
  | c :: rest =>
    match digitVal b c with
    | some v => v :: takeDigits b rest
    | none => []

/-- Numeric value of a digit-value list in base `b`. -/
def valOf (b : Nat) (ds : List Nat) : Nat :=
  ds.foldl (fun a d => a * b + d) 0

/-- JavaScript `parseInt(s)` with no radix argument: skip leading
whitespace, optional sign, optional `0x`/`0X` hex prefix, then the longest
leading digit run; `none` models `NaN` (no digits consumed).  Trailing
garbage is ignored, so `parseInt("12abc") = 12` and `parseInt("0") = 0`. -/
def jsParseInt (s : String) : Option Int :=
  let cs := s.data.dropWhile (fun c => c.isWhitespace)
  let signed : Bool × List Char :=
    match cs with
    | c :: rest =>
      if c = '-' then (true, rest)
      else if c = '+' then (false, rest)
      else (false, c :: rest)
    | [] => (false, [])
  let based : Nat × List Char :=
    match signed.2 with
    | c0 :: c1 :: rest =>
      if c0 = '0' ∧ (c1 = 'x' ∨ c1 = 'X') then (16, rest)
      else (10, c0 :: c1 :: rest)
    | other => (10, other)
  let ds := takeDigits based.1 based.2
  if ds = [] then none
  else some ((if signed.1 then -1 else 1) * (valOf based.1 ds : Int))

/-- Maximal non-whitespace runs of a character list, as strings; `acc`
holds the reversed current run. -/
def splitWords : List Char → List Char → List String
  | acc, [] => if acc = [] then [] else [String.mk acc.reverse]
  | acc, c :: rest =>
    if ws c then
      (if acc = [] then [] else [String.mk acc.reverse]) ++ splitWords [] rest
    else splitWords (c :: acc) rest

/-- JavaScript `text.trim().split(/\s+/)`: the trimmed text split on runs
of whitespace.  On an all-whitespace input JavaScript yields `[""]` (a
single empty token), which the embedding reproduces; on trimmed non-empty
input the regex split produces exactly the maximal non-whitespace runs.
(JavaScript `\s` and `trim` cover some exotic Unicode spaces that
`Char.isWhitespace` does not; the difference is irrelevant to the claims,
which concern ASCII whitespace.) -/
def jsSplitWs (text : String) : List String :=
  let t := jsTrim text
  if t = "" then [""]
  else splitWords [] t.data

/-! ## Data model -/

/-- An order line as produced by the parsing pipeline
(`{company, product, count, ts}` in ai-parser.js).  `ts` is `null` until
the Slack handler attaches the source-message timestamp. -/
structure OrderLine where
  company : String
  product : String
  count : Int
  ts : Option String
deriving DecidableEq, Repr

/-- A raw item as decoded from the Gemini JSON response
(`{company, product, count}`), before local re-normalization. -/
structure RawItem where
  company : String
  product : String
  count : Int
deriving DecidableEq, Repr

/-! ## Normalizer (ai-parser.js, normalizeProduct) -/

/-- Variant list for the canonical product 큰거 (source line 39). -/
def bigVariants : List String := ["근거", "큰거", "큰것", "크거", "큼거", "큰", "대"]

/-- Variant list for the canonical product 녹색 (source line 40). -/
def greenVariants : List String := ["녹색", "녹섹", "노색", "눅색", "녹색색", "초록", "초록색", "그린"]

/-- Variant list for the canonical product 파랑 (source line 41). -/
def blueVariants : List String := ["파랑", "파랑색", "파란", "파라", "퍼렁", "파랑이", "파랑색", "블루"]

/-- `normalizeProduct` from ai-parser.js: falsy input is returned as-is;
otherwise the trimmed token is matched against each canonical key in
insertion order, by exact membership in the variant list or by substring
containment of the key; no match returns the original (untrimmed) input. -/
def normalizeProduct (product : String) : String :=
  if product = "" then product
  else
    let t := jsTrim product
    if bigVariants.contains t || jsIncludes t "큰거" then "큰거"
    else if greenVariants.contains t || jsIncludes t "녹색" then "녹색"
    else if blueVariants.contains t || jsIncludes t "파랑" then "파랑"
    else product

/-! ## Fast parser (ai-parser.js, fastParse) -/

/-- The pair loop of `fastParse` (source lines 70-84): tokens after the
company must form (product, count) pairs; a lone leftover token makes
`countStr` undefined, hence `parseInt` NaN, hence the whole parse fails;
a falsy product or a NaN count likewise aborts with `none` and no partial
list is ever returned. -/
def parsePairs (company : String) : List String → Option (List OrderLine)
  | [] => some []
  | [_] => none
  | p :: c :: rest =>
    if p = "" then none
    else
      match jsParseInt c with
      | none => none
      | some n =>
        (parsePairs company rest).map
          (fun ls => { company := company, product := normalizeProduct p,
                       count := n, ts := none } :: ls)

/-- The final statement of `fastParse` (source line 86):
`results.length > 0 ? results : null` — an empty result list is demoted
to `none`, a failure stays a failure. -/
def demoteEmpty : Option (List OrderLine) → Option (List OrderLine)
  | none => none
  | some rs => if 0 < rs.length then some rs else none

/-- Body of `fastParse` over the already-split token list: require at
least three tokens, first token is the company, remaining tokens parsed
as (product, count) pairs. -/
def fastParseParts : List String → Option (List OrderLine)
  | [] => none
  | company :: rest =>
    if (company :: rest).length < 3 then none
    else demoteEmpty (parsePairs company rest)

/-- `fastParse` from ai-parser.js: split the trimmed text on whitespace
and run the pair-pattern parse on the tokens. -/
def fastParse (text : String) : Option (List OrderLine) :=
  fastParseParts (jsSplitWs text)

/-- Spec-side characterization: the tokens after the company, chunked
into consecutive (product-token, count-token) pairs; `none` when a lone
token is left over. -/
def chunkPairs : List String → Option (List (String × String))
  | [] => some []
  | [_] => none
  | a :: b :: rest => (chunkPairs rest).map (fun ps => (a, b) :: ps)

/-- Spec-side characterization: the order line `l` is what the fast path
produces from the (product-token, count-token) pair `pc` under `company`:
the product is the normalized token, the count is the integer parsed from
the count token, and no timestamp is attached yet. -/
abbrev LineOfPair (company : String) (pc : String × String) (l : OrderLine) : Prop :=
  l.company = company ∧ l.product = normalizeProduct pc.1 ∧
    jsParseInt pc.2 = some l.count ∧ l.ts = none

/-! ## AI fallback parser (ai-parser.js, aiParse) -/

/-- Error message thrown by `aiParse` when `GEMINI_API_KEY` is absent
(source line 97, translated). -/
def geminiKeyMissingMsg : String := "Gemini API key is not configured"

/-- `aiParse` from ai-parser.js.  The configuration credential is
`apiKey`; the whole external interaction inside the `try` block — the
`generateContent` call, the code-fence stripping, and `JSON.parse` — is
abstracted as `outcome`, an `Except` carrying either the decoded item list
or the failure that the `catch` swallows.  The missing-credential check
sits *before* the `try`/`catch` (source lines 96-98), so it throws;
a failure of `outcome` is caught and becomes the empty list (source
lines 131-134); decoded items are locally re-normalized (lines 127-130). -/
def aiParse (apiKey : Option String) (outcome : Except String (List RawItem)) :
    Except String (List OrderLine) :=
  match apiKey with
  | none => Except.error geminiKeyMissingMsg
  | some _ =>
    match outcome with
    | Except.error _ => Except.ok []
    | Except.ok items =>
      Except.ok (items.map (fun it =>
        { company := it.company, product := normalizeProduct it.product,
          count := it.count, ts := none }))

/-- `parseMessage` from ai-parser.js: try `fastParse`; any non-null result
(JavaScript arrays are always truthy) is returned at once, otherwise
`aiParse` is awaited.  The Boolean records whether the AI fallback was
invoked. -/
def parseMessage (apiKey : Option String)
    (outcome : Except String (List RawItem)) (text : String) :
    Except String (List OrderLine) × Bool :=
  match fastParse text with
  | some r => (Except.ok r, false)
  | none => (aiParse apiKey outcome, true)

/-! ## Event deduplicator (slack-handler.js, shouldSkipEvent and the
approve-action duplicate check)

The JavaScript `Set` keeps insertion order and holds no duplicates, so it
is modelled as a duplicate-free `List` in insertion order (oldest first);
`values().next().value` is the head. -/

/-- `CACHE_SIZE` from slack-handler.js line 39. -/
def cacheSize : Nat := 100

/-- The staleness test of `shouldSkipEvent` (source line 52):
`body.event_time && (currentTime - body.event_time > 60)`.  A missing or
zero (falsy) `event_time` disables the check. -/
def isStale (eventTime : Option Int) (now : Int) : Bool :=
  match eventTime with
  | none => false
  | some t => if t = 0 then false else decide (now - t > 60)

/-- `shouldSkipEvent` from slack-handler.js (lines 44-63).  Returns the
skip decision and the updated recency set.  A body without an `event_id`
is never skipped and records nothing; a known id skips; a stale event
skips without recording; otherwise the id is appended and, if the size
then exceeds `CACHE_SIZE`, the oldest entry (the head) is evicted. -/
def shouldSkipEvent {α : Type} [DecidableEq α] (s : List α)
    (eventId : Option α) (eventTime : Option Int) (now : Int) :
    Bool × List α :=
  match eventId with
  | none => (false, s)
  | some id =>
    if id ∈ s then (true, s)
    else if isStale eventTime now then (true, s)
    else
      let s1 := s ++ [id]
      if s1.length > cacheSize then (false, s1.drop 1) else (false, s1)

/-- The duplicate check of the `approve_order` action handler
(slack-handler.js lines 125-129): membership test on `trigger_id`, then a
plain `add` with no size check and no eviction. -/
def approveDedup {α : Type} [DecidableEq α] (s : List α) (triggerId : α) :
    Bool × List α :=
  if triggerId ∈ s then (true, s) else (false, s ++ [triggerId])

/-! ## Sync engine (google-sheets.js)

A spreadsheet is a list of named sheets; each sheet is a list of rows of
string cells (`String(cell)` is applied wherever the source inspects a
cell, so cells are kept in string form, with numeric counts rendered by
`toString`).  External write failures are injected through Boolean
oracles indexed by the position of the line being written. -/

/-- One sheet tab: its title and its rows. -/
structure Sheet where
  name : String
  rows : List (List String)
deriving DecidableEq, Repr

/-- A whole spreadsheet, first sheet = the master tab. -/
abbrev Store := List Sheet

/-- The header row written by `ensureSheetExists` (source line 87). -/
def headerRow : List String := ["업체명", "제품명", "갯수", "Slack_TS", "날짜", "비고"]

/-- `ensureSheetExists`: if no tab carries `name`, create one (it appears
after the existing tabs) and write the header row. -/
def ensureSheet (store : Store) (name : String) : Store :=
  if store.any (fun sh => sh.name = name) then store
  else store ++ [{ name := name, rows := [headerRow] }]

/-- `spreadsheets.values.append`: add one row at the bottom of the named
tab (tab names are unique in a spreadsheet). -/
def appendRow (store : Store) (name : String) (row : List String) : Store :=
  store.map (fun sh =>
    if sh.name = name then { sh with rows := sh.rows ++ [row] } else sh)

/-- The timestamp cell text: JavaScript template interpolation renders a
`null` ts as the text "null". -/
def tsCell : Option String → String
  | some s => s
  | none => "null"

/-- The row written for one order line (source line 122): company,
product, count, the timestamp prefixed with an apostrophe so the store
keeps it as literal text, and the current localized date string. -/
def rowOf (now : String) (l : OrderLine) : List String :=
  [l.company, l.product, toString l.count,
   String.mk [quoteChar] ++ tsCell l.ts, now]

/-- The per-line loop of `appendData` (source lines 119-152).  `failM i` /
`failC i` say whether the master-tab write / the per-company part (sheet
provisioning plus write, one `try` block in the source) throws for the
line at position `i`.  A master failure is caught and swallowed (lines
134-136); a per-company failure is rethrown (lines 148-151) and, through
the surrounding catch (lines 153-156), propagates; `firstName` was read
once before the loop.  (The source stamps `new Date()` per line; the
claims never depend on the date text, so one `now` string is threaded.) -/
def appendGo (failM failC : Nat → Bool) (now firstName : String) :
    Nat → Store → List OrderLine → Except String Store
  | _, st, [] => Except.ok st
  | i, st, l :: rest =>
    let st1 := if failM i then st else appendRow st firstName (rowOf now l)
    if failC i then Except.error "per-company sheet write failed"
    else
      appendGo failM failC now firstName (i + 1)
        (appendRow (ensureSheet st1 l.company) l.company (rowOf now l)) rest

/-- `appendData` from google-sheets.js: read the first tab's title, then
run the per-line loop.  An empty spreadsheet makes the title lookup throw
before any line is processed. -/
def appendData (failM failC : Nat → Bool) (now : String) (store : Store)
    (items : List OrderLine) : Except String Store :=
  match store.head? with
  | none => Except.error "spreadsheet has no sheets"
  | some first => appendGo failM failC now first.name 0 store items

/-- `String(cell).replace(/'/g, "")`: every apostrophe removed. -/
def stripQuotes (s : String) : String :=
  String.mk (s.data.filter (fun c => ¬ c = quoteChar))

/-- The cell predicate of `deleteData` (source lines 197-200): the cell,
with apostrophes removed and trimmed, equals the trimmed target. -/
def cellMatches (target : String) (cell : String) : Bool :=
  jsTrim (stripQuotes cell) = target

/-- `findIndex` over the whole row succeeds: *some* cell matches the
target — the source searches every column, not only the timestamp one. -/
def rowMatches (target : String) (row : List String) : Bool :=
  row.any (cellMatches target)

/-- The protection test (source lines 204-207): the remarks cell (column
index 5) is truthy and non-blank. -/
def rowProtected (row : List String) : Bool :=
  match row.get? 5 with
  | some r => ¬ r = "" && ¬ jsTrim r = ""
  | none => false

/-- The row loop of `deleteData` (source lines 195-228), which walks the
sheet bottom-up deleting matched unprotected rows one `deleteDimension`
request at a time; processing the tail (the lower rows) first mirrors the
descending index and keeps earlier deletions from shifting pending
indices. -/
def deleteRows (target : String) : List (List String) → List (List String)
  | [] => []
  | row :: rest =>
    let lower := deleteRows target rest
    if rowMatches target row && !rowProtected row then lower
    else row :: lower

/-- `deleteData` from google-sheets.js: trim the timestamp once, then run
the row loop over every sheet of the spreadsheet (a sheet with no values
contributes nothing). -/
def deleteData (ts : String) (store : Store) : Store :=
  store.map (fun sh => { sh with rows := deleteRows (jsTrim ts) sh.rows })

/-- `updateData` from google-sheets.js (lines 165-169): delete by
timestamp, then append the new lines; there is no cell-update call
anywhere in the source, so the model has no in-place update operation. -/
def updateData (failM failC : Nat → Bool) (now ts : String)
    (items : List OrderLine) (store : Store) : Except String Store :=
  appendData failM failC now (deleteData ts store) items

/-- Modelled from the spec: the edit operation as §4.7 words it,
"composed strictly as `deleteByTimestamp(store, ts)` followed by
`append(store, newLines)`". -/
def updateByTimestampSpec (failM failC : Nat → Bool) (now ts : String)
    (items : List OrderLine) (store : Store) : Except String Store :=
  appendData failM failC now (deleteData ts store) items

/-! ## Helper lemmas -/

/-- The bottom-up deletion loop behaves like a row filter: a row survives
exactly when it is protected or matches in no cell. -/
theorem deleteRows_eq_filter (target : String) (rows : List (List String)) :
    deleteRows target rows =
      rows.filter (fun row => rowProtected row || ! rowMatches target row) := by
  induction rows with
  | nil => rfl
  | cons r rest ih =>
    cases hm : rowMatches target r <;> cases hp : rowProtected r <;>
      simp [deleteRows, List.filter_cons, hm, hp, ih]

/-- Soundness of the pair loop: a successful `parsePairs` run decomposes
the token list into pairs and produces exactly one line per pair, in
order, related by `LineOfPair`. -/
theorem parsePairs_chunk (company : String) :
    ∀ (toks : List String) (lines : List OrderLine),
      parsePairs company toks = some lines →
      ∃ ps, chunkPairs toks = some ps ∧
        List.Forall₂ (LineOfPair company) ps lines
  | [], lines, h => by
    simp only [parsePairs, Option.some.injEq] at h
    subst h
    exact ⟨[], rfl, List.Forall₂.nil⟩
  | [_], _, h => by simp [parsePairs] at h
  | p :: c :: rest, lines, h => by
    simp only [parsePairs] at h
    by_cases hp : p = ""
    · rw [if_pos hp] at h; exact absurd h (by simp)
    · rw [if_neg hp] at h
      cases hj : jsParseInt c with
      | none => rw [hj] at h; exact absurd h (by simp)
      | some n =>
        rw [hj] at h
        rcases Option.map_eq_some'.mp h with ⟨ls, hls, rfl⟩
        rcases parsePairs_chunk company rest ls hls with ⟨ps, hps, hf⟩
        exact ⟨(p, c) :: ps, by simp [chunkPairs, hps],
          List.Forall₂.cons ⟨rfl, rfl, hj, rfl⟩ hf⟩

/-- Elimination form for a successful `fastParse`: the split yields a
company and at least two further tokens, the pair loop succeeds with the
same lines, and the line list is non-empty. -/
theorem fastParse_some_elim (text : String) (lines : List OrderLine)
    (h : fastParse text = some lines) :
    ∃ company rest, jsSplitWs text = company :: rest ∧
      3 ≤ (company :: rest).length ∧
      parsePairs company rest = some lines ∧ lines ≠ [] := by
  unfold fastParse at h
  cases hs : jsSplitWs text with
  | nil => rw [hs] at h; exact absurd h (by simp [fastParseParts])
  | cons company rest =>
    rw [hs] at h
    simp only [fastParseParts] at h
    by_cases hlen : (company :: rest).length < 3
    · rw [if_pos hlen] at h; exact absurd h (by simp)
    · rw [if_neg hlen] at h
      cases hpp : parsePairs company rest with
      | none => rw [hpp] at h; exact absurd h (by simp [demoteEmpty])
      | some rs =>
        rw [hpp] at h
        simp only [demoteEmpty] at h
        by_cases hr : 0 < rs.length
        · rw [if_pos hr] at h
          obtain rfl : rs = lines := by simpa using h
          refine ⟨company, rest, rfl, by omega, hpp, ?_⟩
          intro hnil
          rw [hnil] at hr
          simp at hr
        · rw [if_neg hr] at h; exact absurd h (by simp)

/-- An odd number of tokens after the company (a lone leftover token)
makes the pair loop fail. -/
theorem parsePairs_odd (company : String) :
    ∀ (toks : List String), toks.length % 2 = 1 →
      parsePairs company toks = none
  | [], h => by simp at h
  | [_], _ => rfl
  | p :: c :: rest, h => by
    have hr : rest.length % 2 = 1 := by
      simp only [List.length_cons] at h; omega
    by_cases hp : p = ""
    · simp [parsePairs, hp]
    · cases hj : jsParseInt c with
      | none => simp [parsePairs, hp, hj]
      | some n => simp [parsePairs, hp, hj, parsePairs_odd company rest hr]

/-- A count token (the tokens at odd positions after the company) that
fails integer parsing makes the pair loop fail. -/
theorem parsePairs_badCount (company : String) :
    ∀ (toks : List String) (k : Nat) (t : String),
      toks.get? (2 * k + 1) = some t → jsParseInt t = none →
      parsePairs company toks = none
  | [], _, _, hget, _ => by simp at hget
  | [_], _, _, _, _ => rfl
  | p :: c :: rest, k, t, hget, hbad => by
    cases k with
    | zero =>
      have hc : c = t := by simpa using hget
      subst hc
      by_cases hp : p = ""
      · simp [parsePairs, hp]
      · simp [parsePairs, hp, hbad]
    | succ k =>
      have hget' : rest.get? (2 * k + 1) = some t := by
        have hidx : 2 * (k + 1) + 1 = (2 * k + 1) + 1 + 1 := by ring
        rw [hidx] at hget
        simpa using hget
      by_cases hp : p = ""
      · simp [parsePairs, hp]
      · cases hj : jsParseInt c with
        | none => simp [parsePairs, hp, hj]
        | some n =>
          simp [parsePairs, hp, hj,
            parsePairs_badCount company rest k t hget' hbad]

/-- Every member of the right list of a `Forall₂` has a related member on
the left. -/
theorem forall2_mem_right {α β : Type} {R : α → β → Prop} :
    ∀ {ps : List α} {ls : List β}, List.Forall₂ R ps ls →
      ∀ b ∈ ls, ∃ a ∈ ps, R a b := by
  intro ps ls h
  induction h with
  | nil => intro b hb; simp at hb
  | cons hr hrest ih =>
    intro b hb
    rcases List.mem_cons.mp hb with rfl | hb2
    · exact ⟨_, List.mem_cons_self _ _, hr⟩
    · rcases ih b hb2 with ⟨a, ha, har⟩
      exact ⟨a, List.mem_cons_of_mem _ ha, har⟩

/-- `appendGo` with a never-failing per-company oracle always succeeds:
master-tab failures are swallowed line by line. -/
theorem appendGo_ok (failM : Nat → Bool) (now fn : String) :
    ∀ (items : List OrderLine) (i : Nat) (st : Store),
      ∃ s, appendGo failM (fun _ => false) now fn i st items = Except.ok s
  | [], _, st => ⟨st, rfl⟩
  | l :: rest, i, st => by
    simp only [appendGo, Bool.false_eq_true, if_false]
    exact appendGo_ok failM now fn rest (i + 1) _

/-! ## Claim C1 — deleteByTimestamp -/

/-- C1 counterexample: `deleteData` deletes a row whose sourceTimestamp
column (index 3, here "999.99") does not equal the target timestamp
"123.45", because the source matches the timestamp against *every* cell
of the row (the company cell matches here).  The claim's "rows whose
sourceTimestamp column does not equal ts are never deleted" is therefore
false at this store. -/
theorem deleteData_matches_any_column_cex :
    cellMatches (jsTrim "123.45") "999.99" = false ∧
    deleteData "123.45"
      [{ name := "M", rows := [["123.45", "p", "1", "999.99", "d", ""]] }] =
      [{ name := "M", rows := [] }] := by
  constructor <;> decide

/-- C1 amended: `deleteData store ts` deletes, in every table, exactly
those rows in which *some cell* (after stripping apostrophes and
trimming) string-equals the trimmed `ts` — not only the sourceTimestamp
column — except that a row with a non-empty remarks cell (column 5) is
kept unchanged; rows with no matching cell are never deleted. -/
theorem deleteData_amended (ts : String) (store : Store) :
    deleteData ts store = store.map (fun sh =>
      { sh with rows := (sh.rows.filter
          (fun row => rowProtected row || ! rowMatches (jsTrim ts) row)) }) := by
  unfold deleteData
  simp only [deleteRows_eq_filter]

/-! ## Claim C2 — aiParse error handling -/

/-- C2 counterexample: with the extraction-service credential missing,
`aiParse` does not return the empty sequence — it throws, and the error
propagates to the caller (the missing-key check sits before the
`try`/`catch` in the source). -/
theorem aiParse_missing_key_cex :
    aiParse none (Except.ok ([] : List RawItem)) =
      Except.error geminiKeyMissingMsg := rfl

/-- C2 amended: a decoding failure of the service response makes
`aiParse` return the empty sequence without propagating, but a missing
credential raises an error which propagates to the caller, including
through `parseMessage` when the fast path fails. -/
theorem aiParse_amended (k e : String)
    (outcome : Except String (List RawItem)) (text : String) :
    aiParse (some k) (Except.error e) = Except.ok [] ∧
    aiParse none outcome = Except.error geminiKeyMissingMsg ∧
    (fastParse text = none →
      parseMessage none outcome text =
        (Except.error geminiKeyMissingMsg, true)) := by
  refine ⟨rfl, rfl, fun hf => ?_⟩
  simp [parseMessage, hf, aiParse]

/-- C2 witness: concrete run of the amended theorem on input "xyz"
(which the fast parser rejects) with no credential configured. -/
theorem aiParse_amended_witness :
    fastParse "xyz" = none ∧
    parseMessage none (Except.ok ([] : List RawItem)) "xyz" =
      (Except.error geminiKeyMissingMsg, true) :=
  ⟨by decide, (aiParse_amended "k" "boom" (Except.ok []) "xyz").2.2 (by decide)⟩

/-! ## Claim C3 — dedup capacity and FIFO eviction -/

set_option maxRecDepth 4000 in
/-- C3 counterexample: fill the recency set to its capacity of 100
through 100 fresh message events, then run one approve-action duplicate
check with a fresh trigger identity: the handler records the identity
without evicting, and the set holds 101 entries — the claimed size bound
fails after an action dedup check. -/
theorem dedup_capacity_cex :
    (approveDedup
      ((List.range 100).foldl
        (fun s i => (shouldSkipEvent s (some i) none 0).2) [])
      1000).2.length = 101 := by decide

/-- C3 amended: the message-event dedup check `shouldSkipEvent` does
maintain the bound — from a state of at most 100 identities it returns a
state of at most 100 — and when a fresh identity is recorded at full
capacity the evicted identity is the head of the insertion-ordered state,
i.e. the oldest inserted, not the least-recently-checked; the
approve-action check, however, records without evicting (see the
counterexample). -/
theorem shouldSkipEvent_amended {α : Type} [DecidableEq α] (s : List α)
    (eventId : Option α) (eventTime : Option Int) (now : Int)
    (h : s.length ≤ 100) :
    (shouldSkipEvent s eventId eventTime now).2.length ≤ 100 ∧
    (∀ id, eventId = some id → id ∉ s → isStale eventTime now = false →
      s.length = 100 →
      (shouldSkipEvent s eventId eventTime now).2 = s.tail ++ [id]) := by
  constructor
  · cases eventId with
    | none => simpa [shouldSkipEvent] using h
    | some id =>
      by_cases hm : id ∈ s
      · simpa [shouldSkipEvent, hm] using h
      · by_cases hst : isStale eventTime now = true
        · simpa [shouldSkipEvent, hm, hst] using h
        · by_cases hlen : (s ++ [id]).length > cacheSize
          · have hlen2 : cacheSize < s.length + 1 := by simpa using hlen
            have heq : (shouldSkipEvent s (some id) eventTime now).2
                = (s ++ [id]).tail := by
              simp [shouldSkipEvent, hm, hst, hlen2]
            rw [heq]
            have hlen3 : ((s ++ [id]).tail).length = s.length := by simp
            rw [hlen3]; exact h
          · have hlen2 : ¬ cacheSize < s.length + 1 := by simpa using hlen
            have heq : (shouldSkipEvent s (some id) eventTime now).2
                = s ++ [id] := by
              simp [shouldSkipEvent, hm, hst, hlen2]
            rw [heq]
            simp only [cacheSize] at hlen2
            simp only [List.length_append, List.length_singleton]
            omega
  · intro id hid hmem hstale hlen100
    subst hid
    have hlen2 : cacheSize < s.length + 1 := by simp [cacheSize, hlen100]
    have heq : (shouldSkipEvent s (some id) eventTime now).2
        = (s ++ [id]).tail := by
      simp [shouldSkipEvent, hmem, hstale, hlen2]
    rw [heq]
    cases s with
    | nil => simp at hlen100
    | cons a t => simp

set_option maxRecDepth 4000 in
/-- C3 witness: concrete run of the amended theorem at a full state of
100 identities and a fresh id; the oldest identity (the head, id 0) is
the one evicted. -/
theorem shouldSkipEvent_amended_witness :
    (List.range 100).length ≤ 100 ∧
    ((shouldSkipEvent (List.range 100) (some 100) none 0).2.length ≤ 100 ∧
     (shouldSkipEvent (List.range 100) (some 100) none 0).2 =
       (List.range 100).tail ++ [100]) :=
  ⟨by decide,
   (shouldSkipEvent_amended (List.range 100) (some 100) none 0 (by decide)).1,
   (shouldSkipEvent_amended (List.range 100) (some 100) none 0 (by decide)).2
     100 rfl (by decide) rfl (by decide)⟩

/-! ## Claim C4 — counts strictly positive -/

/-- C4 counterexample: the pipeline's fast path accepts a zero count
("acme 큰거 0" parses successfully with count 0), so not every produced
OrderLine has a strictly positive count. -/
theorem count_positive_cex :
    fastParse "acme 큰거 0" =
      some [{ company := "acme", product := "큰거", count := 0, ts := none }] ∧
    ¬ ((0 : Int) > 0) := by
  constructor <;> decide

/-- C4 amended: whenever the fast path succeeds, its lines pair
positionally with the (product-token, count-token) pairs of the input,
and each OrderLine's count is the integer obtained by `parseInt` of *its
own* literal count token — which may be zero or negative, so strict
positivity is not guaranteed; the AI fallback passes the decoded counts
through unvalidated, normalizing only the product. -/
theorem count_amended (text : String) (lines : List OrderLine)
    (h : fastParse text = some lines) :
    (∃ company rest ps, jsSplitWs text = company :: rest ∧
      chunkPairs rest = some ps ∧
      List.Forall₂ (fun (pc : String × String) (l : OrderLine) =>
        jsParseInt pc.2 = some l.count) ps lines) ∧
    ∀ (k : String) (items : List RawItem),
      aiParse (some k) (Except.ok items) =
        Except.ok (items.map (fun it =>
          { company := it.company, product := normalizeProduct it.product,
            count := it.count, ts := none })) := by
  refine ⟨?_, fun k items => rfl⟩
  obtain ⟨company, rest, hs, _, hp, _⟩ := fastParse_some_elim text lines h
  obtain ⟨ps, hc, hf⟩ := parsePairs_chunk company rest lines hp
  exact ⟨company, rest, ps, hs, hc,
    hf.imp (fun a b hab => hab.2.2.1)⟩

/-- C4 witness: concrete run of the amended theorem on the zero-count
parse — the single line's count 0 is tied to its own count token "0". -/
theorem count_amended_witness :
    fastParse "acme 큰거 0" =
      some [{ company := "acme", product := "큰거", count := 0, ts := none }] ∧
    ((∃ company rest ps, jsSplitWs "acme 큰거 0" = company :: rest ∧
        chunkPairs rest = some ps ∧
        List.Forall₂ (fun (pc : String × String) (l : OrderLine) =>
          jsParseInt pc.2 = some l.count) ps
          [{ company := "acme", product := "큰거", count := 0, ts := none }]) ∧
     ∀ (k : String) (items : List RawItem),
       aiParse (some k) (Except.ok items) =
         Except.ok (items.map (fun it =>
           { company := it.company, product := normalizeProduct it.product,
             count := it.count, ts := none }))) :=
  ⟨by decide, count_amended "acme 큰거 0"
    [{ company := "acme", product := "큰거", count := 0, ts := none }]
    (by decide)⟩

/-! ## Claim C5 — fast path structure, AI never invoked -/

/-- C5: whenever `fastParse` succeeds, `parseMessage` returns exactly its
lines and never invokes the AI fallback (the Boolean component is
false); the input tokens after the company chunk into (product, count)
pairs, and there is one OrderLine per pair in input order with the
product normalized and the count the integer parsed from the literal
count token. -/
theorem parseMessage_fast_path (apiKey : Option String)
    (outcome : Except String (List RawItem)) (text : String)
    (lines : List OrderLine) (h : fastParse text = some lines) :
    parseMessage apiKey outcome text = (Except.ok lines, false) ∧
    ∃ company rest ps, jsSplitWs text = company :: rest ∧
      chunkPairs rest = some ps ∧
      List.Forall₂ (LineOfPair company) ps lines := by
  refine ⟨by simp [parseMessage, h], ?_⟩
  obtain ⟨company, rest, hs, _, hp, _⟩ := fastParse_some_elim text lines h
  obtain ⟨ps, hc, hf⟩ := parsePairs_chunk company rest lines hp
  exact ⟨company, rest, ps, hs, hc, hf⟩

/-- C5 witness: concrete run on a two-pair message. -/
theorem parseMessage_fast_path_witness :
    fastParse "acme 큰거 3 파랑 2" =
      some [{ company := "acme", product := "큰거", count := 3, ts := none },
            { company := "acme", product := "파랑", count := 2, ts := none }] ∧
    (parseMessage none (Except.ok ([] : List RawItem)) "acme 큰거 3 파랑 2" =
      (Except.ok
        [{ company := "acme", product := "큰거", count := 3, ts := none },
         { company := "acme", product := "파랑", count := 2, ts := none }],
       false) ∧
     ∃ company rest ps, jsSplitWs "acme 큰거 3 파랑 2" = company :: rest ∧
       chunkPairs rest = some ps ∧
       List.Forall₂ (LineOfPair company) ps
         [{ company := "acme", product := "큰거", count := 3, ts := none },
          { company := "acme", product := "파랑", count := 2, ts := none }]) :=
  ⟨by decide,
   parseMessage_fast_path none (Except.ok []) "acme 큰거 3 파랑 2" _ (by decide)⟩

/-! ## Claim C6 — all-or-nothing fast parse -/

/-- C6: if the tokens after the company leave a lone leftover (odd
remainder) or any count token (the tokens at odd positions after the
company) fails integer parsing, `fastParse` returns NO_MATCH (`none`),
never a partial list. -/
theorem fastParse_all_or_nothing (text company : String)
    (rest : List String) (hsplit : jsSplitWs text = company :: rest)
    (hbad : rest.length % 2 = 1 ∨
      ∃ k t, rest.get? (2 * k + 1) = some t ∧ jsParseInt t = none) :
    fastParse text = none := by
  unfold fastParse
  rw [hsplit]
  simp only [fastParseParts]
  by_cases hlen : (company :: rest).length < 3
  · rw [if_pos hlen]
  · rw [if_neg hlen]
    have hp : parsePairs company rest = none := by
      rcases hbad with hodd | ⟨k, t, hget, hbadt⟩
      · exact parsePairs_odd company rest hodd
      · exact parsePairs_badCount company rest k t hget hbadt
    rw [hp]
    rfl

/-- C6 witness: "acme big small" — the count token "small" fails integer
parsing, so the whole parse is NO_MATCH. -/
theorem fastParse_all_or_nothing_witness :
    jsSplitWs "acme big small" = "acme" :: ["big", "small"] ∧
    fastParse "acme big small" = none :=
  ⟨by decide,
   fastParse_all_or_nothing "acme big small" "acme" ["big", "small"]
     (by decide) (Or.inr ⟨0, "small", by decide, by decide⟩)⟩

/-! ## Claim C7 — edit is delete-then-reappend -/

/-- C7: `updateData` is observationally the sequential composition of
`deleteData` and `appendData` on the same store, which is also exactly
the operation the spec words describe; the model contains no in-place
cell-update operation because the source never issues one. -/
theorem updateData_is_delete_then_append (failM failC : Nat → Bool)
    (now ts : String) (items : List OrderLine) (store : Store) :
    updateData failM failC now ts items store =
      appendData failM failC now (deleteData ts store) items ∧
    updateData failM failC now ts items store =
      updateByTimestampSpec failM failC now ts items store :=
  ⟨rfl, rfl⟩

/-! ## Claim C8 — per-company failures fatal, master failures swallowed -/

/-- C8: during `appendData`, (1) if the per-company writes never fail the
call succeeds no matter which master-tab writes fail (master failures are
logged and swallowed); (2) a per-company failure on a line raises and the
error propagates out of `appendData`; (3) with the master write failing
and the per-company write succeeding, the line still completes: the
per-company tab is provisioned and receives the row while the master tab
is untouched. -/
theorem appendData_failure_modes (failM failC : Nat → Bool) (now : String)
    (store : Store) (items : List OrderLine) (l : OrderLine)
    (rest : List OrderLine) (h : store ≠ []) :
    (∃ s, appendData failM (fun _ => false) now store items = Except.ok s) ∧
    (failC 0 = true →
      appendData failM failC now store (l :: rest) =
        Except.error "per-company sheet write failed") ∧
    appendData (fun _ => true) (fun _ => false) now store [l] =
      Except.ok (appendRow (ensureSheet store l.company) l.company
        (rowOf now l)) := by
  obtain ⟨first, tl, rfl⟩ : ∃ a t, store = a :: t := by
    cases store with
    | nil => exact absurd rfl h
    | cons a t => exact ⟨a, t, rfl⟩
  refine ⟨appendGo_ok failM now first.name items 0 (first :: tl), ?_, ?_⟩
  · intro hc
    simp [appendData, appendGo, hc]
  · simp [appendData, appendGo]

/-- C8 witness: concrete run on a one-sheet store. -/
theorem appendData_failure_modes_witness :
    ([{ name := "Main", rows := [] }] : Store) ≠ [] ∧
    ((∃ s, appendData (fun _ => false) (fun _ => false) "d"
        [{ name := "Main", rows := [] }] [] = Except.ok s) ∧
     ((fun _ : Nat => true) 0 = true →
       appendData (fun _ => false) (fun _ => true) "d"
         [{ name := "Main", rows := [] }]
         [{ company := "acme", product := "p", count := 1, ts := some "1.2" }] =
         Except.error "per-company sheet write failed") ∧
     appendData (fun _ => true) (fun _ => false) "d"
       [{ name := "Main", rows := [] }]
       [{ company := "acme", product := "p", count := 1, ts := some "1.2" }] =
       Except.ok (appendRow
         (ensureSheet [{ name := "Main", rows := [] }] "acme") "acme"
         (rowOf "d"
           { company := "acme", product := "p", count := 1, ts := some "1.2" }))) :=
  ⟨by decide,
   appendData_failure_modes (fun _ => false) (fun _ => true) "d"
     [{ name := "Main", rows := [] }] []
     { company := "acme", product := "p", count := 1, ts := some "1.2" } []
     (by decide)⟩

/-! ## Claim C9 — the Normalizer is idempotent -/

/-- C9: `normalizeProduct` is idempotent: normalizing an already
normalized token changes nothing, for every string. -/
theorem normalizeProduct_idem (x : String) :
    normalizeProduct (normalizeProduct x) = normalizeProduct x := by
  by_cases h0 : x = ""
  · subst h0; decide
  · by_cases hb : jsTrim x ∈ bigVariants ∨ jsIncludes (jsTrim x) "큰거" = true
    · have hx : normalizeProduct x = "큰거" := by
        simp [normalizeProduct, h0, hb]
      rw [hx]; decide
    · by_cases hg : jsTrim x ∈ greenVariants ∨ jsIncludes (jsTrim x) "녹색" = true
      · have hx : normalizeProduct x = "녹색" := by
          simp [normalizeProduct, h0, hb, hg]
        rw [hx]; decide
      · by_cases hbl : jsTrim x ∈ blueVariants ∨ jsIncludes (jsTrim x) "파랑" = true
        · have hx : normalizeProduct x = "파랑" := by
            simp [normalizeProduct, h0, hb, hg, hbl]
          rw [hx]; decide
        · have hx : normalizeProduct x = x := by
            simp [normalizeProduct, h0, hb, hg, hbl]
          simp [hx]

/-! ## Claim C10 — fastParse never empty, company is first token -/

/-- C10: a successful `fastParse` result is never the empty sequence, and
every OrderLine in it carries as company the first whitespace-separated
token of the input. -/
theorem fastParse_nonempty_company (text : String) (lines : List OrderLine)
    (h : fastParse text = some lines) :
    lines ≠ [] ∧ ∃ company rest, jsSplitWs text = company :: rest ∧
      ∀ l ∈ lines, l.company = company := by
  obtain ⟨company, rest, hs, _, hp, hne⟩ := fastParse_some_elim text lines h
  obtain ⟨ps, _, hf⟩ := parsePairs_chunk company rest lines hp
  refine ⟨hne, company, rest, hs, ?_⟩
  intro l hl
  obtain ⟨pc, _, hR⟩ := forall2_mem_right hf l hl
  exact hR.1

/-- C10 witness: concrete run on a one-pair message. -/
theorem fastParse_nonempty_company_witness :
    fastParse "corp 파랑 7" =
      some [{ company := "corp", product := "파랑", count := 7, ts := none }] ∧
    (([{ company := "corp", product := "파랑", count := 7, ts := none }] :
        List OrderLine) ≠ [] ∧
     ∃ company rest, jsSplitWs "corp 파랑 7" = company :: rest ∧
       ∀ l ∈ ([{ company := "corp", product := "파랑", count := 7,
                 ts := none }] : List OrderLine), l.company = company) :=
  ⟨by decide, fastParse_nonempty_company "corp 파랑 7" _ (by decide)⟩

end OrderSync
